import Mathlib

/-!
Verification of the per-user infrastructure of the tutoring/analysis bot
(`src/telegram_bot.py`): the sliding-window rate limiter, the tutoring state
machine over the static curriculum catalog, the content-addressed OCR cache,
and the retrying bounded-size downloader.

Each Python function is shallowly embedded as an executable Lean definition;
stateful code becomes explicit state passing.  Timestamps (Python `time.time()`
floats) and megabyte sizes are modelled as rationals; dict-backed per-user
state is modelled as the single user's slot, since every handler touches only
`update.effective_user.id`'s entry.
-/

namespace TelegramBot

/-! ## Rate limiter (`_rate_limited`, telegram_bot.py lines 570-578)

Python keeps, per user, a deque of admission timestamps.  A call evicts
timestamps older than `now - RATE_LIMIT_WINDOW_S` from the front, rejects
(returns `True`) when `RATE_LIMIT_MAX` timestamps remain, and otherwise
appends `now` and admits. -/

/-- One call of `_rate_limited` for a single user.  `W` is
`RATE_LIMIT_WINDOW_S`, `M` is `RATE_LIMIT_MAX`, `dq` the user's deque of
previously retained admission timestamps.  Returns (limited?, new deque):
`true` means the call is rejected.  Python:
`while dq and now - dq[0] > RATE_LIMIT_WINDOW_S: dq.popleft()` is the
`dropWhile` (front-only eviction); then
`if len(dq) >= RATE_LIMIT_MAX: return True` else `dq.append(now); return False`. -/
def rateLimited (W : ℚ) (M : Nat) (now : ℚ) (dq : List ℚ) : Bool × List ℚ :=
  let dq := dq.dropWhile (fun t => decide (W < now - t))
  if M ≤ dq.length then (true, dq) else (false, dq ++ [now])

/-- Fold `rateLimited` over a sequence of call times for one user, starting
from state `s` = (admitted timestamps so far, deque).  A call whose result is
`false` (not limited) is admitted and its timestamp recorded. -/
def rlRun (W : ℚ) (M : Nat) (s : List ℚ × List ℚ) (ts : List ℚ) : List ℚ × List ℚ :=
  ts.foldl (fun s now =>
    let r := rateLimited W M now s.2
    (if r.1 then s.1 else s.1 ++ [now], r.2)) s

/-- The timestamps of the admitted calls after processing `ts` from a fresh user. -/
def rlAccepted (W : ℚ) (M : Nat) (ts : List ℚ) : List ℚ := (rlRun W M ([], []) ts).1

/-- The user's deque after processing `ts` from a fresh user. -/
def rlWindow (W : ℚ) (M : Nat) (ts : List ℚ) : List ℚ := (rlRun W M ([], []) ts).2

theorem rlRun_append (W : ℚ) (M : Nat) (s : List ℚ × List ℚ) (ts₁ ts₂ : List ℚ) :
    rlRun W M s (ts₁ ++ ts₂) = rlRun W M (rlRun W M s ts₁) ts₂ :=
  List.foldl_append _ _ _ _

/-- On an ascending list, front-only eviction of the too-old timestamps is
exactly filtering to the in-window ones. -/
theorem dropWhile_old_eq_filter (W now : ℚ) (l : List ℚ)
    (hl : l.Pairwise (· ≤ ·)) :
    l.dropWhile (fun t => decide (W < now - t)) =
      l.filter (fun t => decide (now - t ≤ W)) := by
  induction l with
  | nil => rfl
  | cons a l ih =>
    rcases List.pairwise_cons.1 hl with ⟨ha, hl'⟩
    by_cases h : W < now - a
    · rw [List.dropWhile_cons_of_pos (by simp only [decide_eq_true_eq]; exact h),
        List.filter_cons_of_neg (by simp only [decide_eq_true_eq]; exact not_le.2 h)]
      exact ih hl'
    · rw [List.dropWhile_cons_of_neg (by simp only [decide_eq_true_eq]; exact h),
        List.filter_cons_of_pos (by simp only [decide_eq_true_eq]; exact not_lt.1 h)]
      have : ∀ t ∈ l, now - t ≤ W := by
        intro t ht
        have h1 : a ≤ t := ha t ht
        have h2 : now - a ≤ W := not_lt.1 h
        linarith
      rw [List.filter_eq_self.2
        (by intro t ht; simp only [decide_eq_true_eq]; exact this t ht)]

/-- Filtering with a pointwise-stronger predicate yields a shorter list. -/
theorem length_filter_mono {α : Type} (l : List α) (p q : α → Bool)
    (h : ∀ a ∈ l, p a = true → q a = true) :
    (l.filter p).length ≤ (l.filter q).length := by
  induction l with
  | nil => simp
  | cons a l ih =>
    have ih' := ih (fun x hx => h x (List.mem_cons_of_mem a hx))
    by_cases hp : p a = true
    · rw [List.filter_cons_of_pos hp, List.filter_cons_of_pos (h a (List.mem_cons_self a l) hp)]
      simpa using ih'
    · rw [List.filter_cons_of_neg (by simpa using hp)]
      by_cases hq : q a = true
      · rw [List.filter_cons_of_pos hq]
        exact le_trans ih' (by simp)
      · rw [List.filter_cons_of_neg (by simpa using hq)]
        exact ih'

theorem filter_singleton_length {α : Type} (p : α → Bool) (a : α) :
    ([a].filter p).length ≤ 1 := by
  rw [List.filter_singleton]
  cases p a <;> simp

theorem filter_singleton_of_pos {α : Type} (p : α → Bool) (a : α) (h : p a = true) :
    [a].filter p = [a] := by
  rw [List.filter_singleton, h]
  rfl

theorem filter_singleton_of_neg {α : Type} (p : α → Bool) (a : α) (h : p a = false) :
    [a].filter p = [] := by
  rw [List.filter_singleton, h]
  rfl

/-- Invariant of the rate-limiter state after processing a call history `ts`:
the admitted timestamps form a subsequence of the calls; the deque holds at
most `M` entries and is exactly the admitted timestamps within the trailing
window of the latest call; and in every trailing window `[s - W, s]` at most
`M` calls were admitted. -/
def RLInv (W : ℚ) (M : Nat) (ts : List ℚ) : Prop :=
  (rlAccepted W M ts).Sublist ts ∧
  (rlWindow W M ts).length ≤ M ∧
  (∀ now, ts.getLast? = some now →
    rlWindow W M ts = (rlAccepted W M ts).filter (fun t => decide (now - t ≤ W))) ∧
  (ts = [] → rlWindow W M ts = []) ∧
  (∀ s : ℚ, ((rlAccepted W M ts).filter
      (fun t => decide (s - W ≤ t ∧ t ≤ s))).length ≤ M)

theorem rlAccepted_concat (W : ℚ) (M : Nat) (pre : List ℚ) (now : ℚ) :
    rlAccepted W M (pre ++ [now]) =
      if (rateLimited W M now (rlWindow W M pre)).1 then rlAccepted W M pre
      else rlAccepted W M pre ++ [now] := by
  unfold rlAccepted rlWindow
  rw [rlRun_append]
  rfl

theorem rlWindow_concat (W : ℚ) (M : Nat) (pre : List ℚ) (now : ℚ) :
    rlWindow W M (pre ++ [now]) = (rateLimited W M now (rlWindow W M pre)).2 := by
  unfold rlWindow
  rw [rlRun_append]
  rfl

theorem rlInv_of_chain (W : ℚ) (hW : 0 ≤ W) (M : Nat) :
    ∀ ts : List ℚ, List.Chain' (· ≤ ·) ts → RLInv W M ts := by
  intro ts
  induction ts using List.reverseRecOn with
  | nil =>
    intro _
    refine ⟨List.Sublist.refl _, by simp [rlWindow, rlRun], ?_, fun _ => rfl, ?_⟩
    · intro now h
      simp at h
    · intro s
      simp [rlAccepted, rlRun]
  | append_singleton pre now ih =>
    intro hchain
    rcases List.chain'_append.1 hchain with ⟨hpre, -, hlastle⟩
    obtain ⟨hsub, hlen, hchar, hnil, hcount⟩ := ih hpre
    by_cases hpre0 : pre = []
    · -- first-ever call of this user
      subst hpre0
      have hDnil : rlWindow W M [] = [] := rfl
      have hAnil : rlAccepted W M [] = [] := rfl
      have hstep : rateLimited W M now (rlWindow W M []) =
          (if M ≤ 0 then (true, ([] : List ℚ)) else (false, [now])) := by
        simp [rateLimited, hDnil]
      rcases Nat.eq_zero_or_pos M with hM | hM
      · have hstep' : rateLimited W M now (rlWindow W M []) = (true, []) := by
          rw [hstep, if_pos (by omega)]
        have hacc : rlAccepted W M ([] ++ [now]) = [] := by
          rw [rlAccepted_concat, hstep']
          simp [hAnil]
        have hwin : rlWindow W M ([] ++ [now]) = [] := by
          rw [rlWindow_concat, hstep']
        refine ⟨by rw [hacc]; exact List.nil_sublist _, by rw [hwin]; simp, ?_, ?_, ?_⟩
        · intro n _
          rw [hwin, hacc]
          simp
        · intro h
          simp at h
        · intro s
          rw [hacc]
          simp
      · have hstep' : rateLimited W M now (rlWindow W M []) = (false, [now]) := by
          rw [hstep]
          simp [Nat.not_le.2 hM]
        have hacc : rlAccepted W M ([] ++ [now]) = [now] := by
          rw [rlAccepted_concat, hstep']
          simp [hAnil]
        have hwin : rlWindow W M ([] ++ [now]) = [now] := by
          rw [rlWindow_concat, hstep']
        refine ⟨by rw [hacc]; simp, by rw [hwin]; simpa using hM, ?_, ?_, ?_⟩
        · intro n hn
          simp at hn
          subst hn
          rw [hwin, hacc, filter_singleton_of_pos _ now
            (by simp only [sub_self, decide_eq_true_eq]; exact hW)]
        · intro h
          simp at h
        · intro s
          rw [hacc]
          have h1 := filter_singleton_length (fun t => decide (s - W ≤ t ∧ t ≤ s)) now
          omega
    · -- the user has called before; `prev` is the time of the previous call
      obtain ⟨prev, hprev⟩ := List.getLast?_isSome.2 hpre0 |> Option.isSome_iff_exists.1
      have hple : prev ≤ now := hlastle prev (by rw [hprev]; rfl) now rfl
      have hpair : pre.Pairwise (· ≤ ·) := List.chain'_iff_pairwise.1 hpre
      have hApair : (rlAccepted W M pre).Pairwise (· ≤ ·) := hpair.sublist hsub
      have hDval : rlWindow W M pre =
          (rlAccepted W M pre).filter (fun t => decide (prev - t ≤ W)) := hchar prev hprev
      have hDpair : (rlWindow W M pre).Pairwise (· ≤ ·) := by
        rw [hDval]
        exact hApair.sublist (List.filter_sublist _)
      -- eviction = filtering to the window of `now`, over the admitted history
      have hdrop : (rlWindow W M pre).dropWhile (fun t => decide (W < now - t)) =
          (rlAccepted W M pre).filter (fun t => decide (now - t ≤ W)) := by
        rw [dropWhile_old_eq_filter W now _ hDpair, hDval, List.filter_filter]
        apply List.filter_congr
        intro a _
        by_cases h : now - a ≤ W
        · have : prev - a ≤ W := by linarith
          simp [h, this]
        · simp [h]
      have hEsub : ((rlAccepted W M pre).filter
          (fun t => decide (now - t ≤ W))).length ≤ (rlWindow W M pre).length := by
        rw [← hdrop]
        exact (List.dropWhile_sublist _).length_le
      by_cases hM : M ≤ ((rlAccepted W M pre).filter (fun t => decide (now - t ≤ W))).length
      · -- rejected: nothing is recorded
        have hstep : rateLimited W M now (rlWindow W M pre) =
            (true, (rlAccepted W M pre).filter (fun t => decide (now - t ≤ W))) := by
          simp only [rateLimited]
          rw [hdrop, if_pos hM]
        have hacc : rlAccepted W M (pre ++ [now]) = rlAccepted W M pre := by
          rw [rlAccepted_concat, hstep]
          simp
        have hwin : rlWindow W M (pre ++ [now]) =
            (rlAccepted W M pre).filter (fun t => decide (now - t ≤ W)) := by
          rw [rlWindow_concat, hstep]
        refine ⟨?_, ?_, ?_, ?_, ?_⟩
        · rw [hacc]
          exact hsub.trans (List.sublist_append_left pre [now])
        · rw [hwin]
          exact le_trans hEsub hlen
        · intro n hn
          rw [List.getLast?_concat] at hn
          cases hn
          rw [hwin, hacc]
        · intro h
          simp at h
        · intro s
          rw [hacc]
          exact hcount s
      · -- admitted: `now` is appended
        have hstep : rateLimited W M now (rlWindow W M pre) =
            (false, (rlAccepted W M pre).filter (fun t => decide (now - t ≤ W)) ++ [now]) := by
          simp only [rateLimited]
          rw [hdrop, if_neg hM]
        have hacc : rlAccepted W M (pre ++ [now]) = rlAccepted W M pre ++ [now] := by
          rw [rlAccepted_concat, hstep]
          simp
        have hwin : rlWindow W M (pre ++ [now]) =
            (rlAccepted W M pre).filter (fun t => decide (now - t ≤ W)) ++ [now] := by
          rw [rlWindow_concat, hstep]
        refine ⟨?_, ?_, ?_, ?_, ?_⟩
        · rw [hacc]
          exact hsub.append (List.Sublist.refl [now])
        · rw [hwin]
          have := Nat.lt_of_not_le hM
          simp only [List.length_append, List.length_singleton]
          omega
        · intro n hn
          rw [List.getLast?_concat] at hn
          cases hn
          rw [hwin, hacc, List.filter_append, filter_singleton_of_pos _ now
            (by simp only [sub_self, decide_eq_true_eq]; exact hW)]
        · intro h
          simp at h
        · intro s
          rw [hacc, List.filter_append]
          by_cases hs : s - W ≤ now ∧ now ≤ s
          · have h1 : ((rlAccepted W M pre).filter
                (fun t => decide (s - W ≤ t ∧ t ≤ s))).length ≤
                ((rlAccepted W M pre).filter (fun t => decide (now - t ≤ W))).length := by
              apply length_filter_mono
              intro a _ ha
              simp only [decide_eq_true_eq] at ha ⊢
              obtain ⟨ha1, _⟩ := ha
              obtain ⟨_, hs2⟩ := hs
              linarith
            have h2 := Nat.lt_of_not_le hM
            simp only [List.length_append]
            have h3 := filter_singleton_length (fun t => decide (s - W ≤ t ∧ t ≤ s)) now
            omega
          · have h3 : (([now]).filter (fun t => decide (s - W ≤ t ∧ t ≤ s))).length = 0 := by
              rw [filter_singleton_of_neg _ now (by simp only [decide_eq_false_iff_not]; exact hs)]
              rfl
            simp only [List.length_append, h3, Nat.add_zero]
            exact hcount s

/-- C1: for one user and any sequence of `_rate_limited` calls with
non-decreasing call times (and a non-negative configured window `W`),
(i) the number of admitted calls whose timestamps lie in any trailing window
`[s - W, s]` never exceeds `M`, and (ii) immediately after every admission
decision the retained deque contains only timestamps within the trailing
window of length `W` ending at that decision's time, and holds at most `M`
of them. -/
theorem C1_rate_limit_window (W : ℚ) (M : Nat) (ts : List ℚ)
    (hW : 0 ≤ W) (hts : List.Chain' (· ≤ ·) ts) :
    (∀ s : ℚ, ((rlAccepted W M ts).filter
        (fun t => decide (s - W ≤ t ∧ t ≤ s))).length ≤ M) ∧
    (∀ pre now post, ts = pre ++ now :: post →
       (∀ t ∈ rlWindow W M (pre ++ [now]), now - t ≤ W) ∧
       (rlWindow W M (pre ++ [now])).length ≤ M) := by
  constructor
  · exact (rlInv_of_chain W hW M ts hts).2.2.2.2
  · intro pre now post hsplit
    have hchain : List.Chain' (· ≤ ·) (pre ++ [now]) := by
      have hts' : List.Chain' (· ≤ ·) ((pre ++ [now]) ++ post) := by
        rw [List.append_assoc]
        simpa [hsplit] using hts
      exact (List.chain'_append.1 hts').1
    obtain ⟨-, hlen, hchar, -, -⟩ := rlInv_of_chain W hW M (pre ++ [now]) hchain
    have hch := hchar now (List.getLast?_concat _)
    refine ⟨?_, hlen⟩
    intro t ht
    rw [hch] at ht
    have := List.of_mem_filter ht
    simpa using this

/-- Concrete check of C1 at the spec scenario W=30, M=5: five calls at t=0
and a sixth at t=1; after the sixth decision the deque holds at most five
timestamps. -/
theorem C1_rate_limit_window_witness :
    (0:ℚ) ≤ 30 ∧ (rlWindow 30 5 ([0, 0, 0, 0, 0] ++ [1])).length ≤ 5 :=
  ⟨by norm_num,
   ((C1_rate_limit_window 30 5 [0, 0, 0, 0, 0, 1, 31] (by norm_num)
      (by norm_num [List.chain'_cons, List.chain'_singleton])).2
      [0, 0, 0, 0, 0] 1 [31] rfl).2⟩

/-! ## Tutor state machine (telegram_bot.py lines 649-931)

`tutor_state` is a dict keyed by user id whose values are dicts
`{lang, level, module_idx, quiz_idx, score}`; every command works on
`update.effective_user.id`'s entry only, so we model a single user's slot as
an `Option Session`.  The static `TUTOR_CONTENT` table (lines 102-551) maps a
language and a level to modules, a quiz and an error catalog; operations look
entries up with plain indexing, so a missing key raises `KeyError` (modelled
by the explicit `keyError`/`raised` constructors; it is unreachable for
sessions created by `learn_cmd`).  `save_state()` calls are modelled by a
Bool flag in each command's result.  The cursors are only ever set to 0 and
incremented, hence `Nat`. -/

structure Module where
  title : String
  lesson : String
  code : String
  exercises : List String
  tasks : List String
deriving Repr, DecidableEq, Inhabited

structure QuizQ where
  q : String
  options : List String
  answer : Nat
deriving Repr, DecidableEq, Inhabited

/-- One entry of the per-level error catalog.  The Python key `example` is a
Lean keyword, hence the field name `exampleText`. -/
structure ErrorEntry where
  name : String
  why : String
  how : String
  exampleText : String
deriving Repr, DecidableEq, Inhabited

structure LevelEntry where
  modules : List Module
  quiz : List QuizQ
  errors : List ErrorEntry
deriving Repr, DecidableEq, Inhabited

/-- `TUTOR_CONTENT` as a lookup function: `cat lang level` is
`TUTOR_CONTENT[lang][level]` when both keys exist. -/
abbrev Catalog : Type := String → Int → Option LevelEntry

/-- One user's `tutor_state[uid]` entry. -/
structure Session where
  lang : String
  level : Int
  module_idx : Nat
  quiz_idx : Nat
  score : Nat
deriving Repr, DecidableEq

/-- `tutor_set` (lines 649-657): (re)create the session with all cursors and
the score at 0 (the subsequent `save_state()` is the caller's saved-flag). -/
def tutor_set (lang : String) (level : Int) : Session :=
  { lang := lang, level := level, module_idx := 0, quiz_idx := 0, score := 0 }

/-- Result of `tutor_current_module` (lines 660-668).  Python returns a triple:
`(None, None, None)` ↔ `noSession`; `(st, None, modules)` ↔ `exhausted`;
`(st, modules[idx], modules)` ↔ `current`.  `keyError` is the implicit
`KeyError` of `TUTOR_CONTENT[lang][level]` for a session whose pair is not in
the catalog. -/
inductive CurModule where
  | noSession
  | keyError (s : Session)
  | exhausted (s : Session) (mods : List Module)
  | current (s : Session) (m : Module) (mods : List Module)
deriving Repr, DecidableEq

def tutor_current_module (cat : Catalog) (st : Option Session) : CurModule :=
  match st with
  | none => .noSession
  | some s =>
    match cat s.lang s.level with
    | none => .keyError s
    | some entry =>
      if h : s.module_idx < entry.modules.length then
        .current s (entry.modules.get ⟨s.module_idx, h⟩) entry.modules
      else .exhausted s entry.modules

/-- Result of `tutor_quiz_question` (lines 671-679), same shape as
`CurModule`. -/
inductive CurQuestion where
  | noSession
  | keyError (s : Session)
  | exhausted (s : Session) (quiz : List QuizQ)
  | current (s : Session) (q : QuizQ) (quiz : List QuizQ)
deriving Repr, DecidableEq

def tutor_quiz_question (cat : Catalog) (st : Option Session) : CurQuestion :=
  match st with
  | none => .noSession
  | some s =>
    match cat s.lang s.level with
    | none => .keyError s
    | some entry =>
      if h : s.quiz_idx < entry.quiz.length then
        .current s (entry.quiz.get ⟨s.quiz_idx, h⟩) entry.quiz
      else .exhausted s entry.quiz

/-- Replies of `learn_cmd`; the two Python rejections (unsupported language,
level not in `TUTOR_CONTENT[lang]`) are the same catalog-lookup failure. -/
inductive LearnOutcome where
  | invalidSelection
  | configured (lang : String) (level : Int)
deriving Repr, DecidableEq

/-- `learn_cmd` (lines 796-816), the spec's `begin`: validate the selection
against the catalog, then `tutor_set`.  Argument parsing is omitted; `lang`
and `level` are the parsed arguments.  Result: (new state, reply, saved?). -/
def learn_cmd (cat : Catalog) (st : Option Session) (lang : String) (level : Int) :
    Option Session × LearnOutcome × Bool :=
  match cat lang level with
  | none => (st, .invalidSelection, false)
  | some _ => (some (tutor_set lang level), .configured lang level, true)

/-- Replies of `next_cmd`.  `lesson m idx total` carries the pre-increment
cursor, as `tutor_format_module(mod, st["module_idx"], len(mods))` runs
before `st["module_idx"] += 1`.  `raised` is the propagated `KeyError`. -/
inductive NextOutcome where
  | noSession
  | raised
  | exhausted
  | lesson (m : Module) (idx total : Nat)
deriving Repr, DecidableEq

/-- `next_cmd` (lines 819-831), the spec's `advance`. -/
def next_cmd (cat : Catalog) (st : Option Session) : Option Session × NextOutcome × Bool :=
  match tutor_current_module cat st with
  | .noSession => (st, .noSession, false)
  | .keyError s => (some s, .raised, false)
  | .exhausted s _ => (some s, .exhausted, false)
  | .current s m mods =>
      (some { s with module_idx := s.module_idx + 1 }, .lesson m s.module_idx mods.length, true)

/-- Replies of `quiz_cmd`. -/
inductive QuizOutcome where
  | noSession
  | raised
  | noQuiz
  | firstQuestion (q : QuizQ) (idx total : Nat)
deriving Repr, DecidableEq

/-- `quiz_cmd` (lines 844-857), the spec's `startQuiz`.  Note that the
in-place reset `st["quiz_idx"] = 0; st["score"] = 0` happens BEFORE the
empty-quiz check, so the mutated session is kept on the `noQuiz` branch
(but `save_state()` is skipped there). -/
def quiz_cmd (cat : Catalog) (st : Option Session) : Option Session × QuizOutcome × Bool :=
  match st with
  | none => (none, .noSession, false)
  | some s =>
    let s2 := { s with quiz_idx := 0, score := 0 }
    match tutor_quiz_question cat (some s2) with
    | .noSession => (some s2, .noSession, false)
    | .keyError s3 => (some s3, .raised, false)
    | .exhausted s3 _ => (some s3, .noQuiz, false)
    | .current s3 q quiz => (some s3, .firstQuestion q s3.quiz_idx quiz.length, true)

/-- Replies of `answer_cmd`. -/
inductive AnswerOutcome where
  | noSession
  | raised
  | noQuestion
  | finished (correct : Bool) (score total : Nat)
  | nextQuestion (correct : Bool) (q : QuizQ) (idx total : Nat)
deriving Repr, DecidableEq

/-- `answer_cmd` (lines 860-891), the spec's `submitAnswer`.  The
argument-parsing branches are omitted; `n` is the parsed `/answer` number and
`ans = n - 1` its zero-based form.  `score` is incremented on a match,
`quiz_idx` unconditionally; the reply carries the correctness verdict plus
either the next question or the final score/total summary; `save_state()`
always runs on this path. -/
def answer_cmd (cat : Catalog) (st : Option Session) (n : Int) :
    Option Session × AnswerOutcome × Bool :=
  match st with
  | none => (none, .noSession, false)
  | some s =>
    let ans : Int := n - 1
    match tutor_quiz_question cat (some s) with
    | .noSession => (some s, .noSession, false)
    | .keyError s2 => (some s2, .raised, false)
    | .exhausted s2 _ => (some s2, .noQuestion, false)
    | .current s2 q quiz =>
      let correct := decide (ans = (q.answer : Int))
      let s3 := if correct then { s2 with score := s2.score + 1 } else s2
      let s4 := { s3 with quiz_idx := s3.quiz_idx + 1 }
      if h : s4.quiz_idx < quiz.length then
        (some s4, .nextQuestion correct (quiz.get ⟨s4.quiz_idx, h⟩) s4.quiz_idx quiz.length,
         true)
      else
        (some s4, .finished correct s4.score quiz.length, true)

/-- Replies of `progress_cmd`. -/
inductive ProgressOutcome where
  | noSession
  | raised
  | report (modulesDone modulesTotal score : Nat)
deriving Repr, DecidableEq

/-- `progress_cmd` (lines 894-909), the spec's `progress`: a pure read
reporting `min(module_idx, modules_total)`, the total and the score. -/
def progress_cmd (cat : Catalog) (st : Option Session) :
    Option Session × ProgressOutcome × Bool :=
  match st with
  | none => (none, .noSession, false)
  | some s =>
    match cat s.lang s.level with
    | none => (some s, .raised, false)
    | some entry =>
      (some s, .report (min s.module_idx entry.modules.length) entry.modules.length s.score,
       false)

/-- `reset_cmd` (lines 912-916), the spec's `reset`:
`tutor_state.pop(uid, None); save_state()`. -/
def reset_cmd (_st : Option Session) : Option Session × Bool :=
  (none, true)

/-! ### The catalog fragment used by the concrete scenarios

`TUTOR_CONTENT["python"][0]` (lines 107-133) and the generated placeholder
`TUTOR_CONTENT["python"][11]` (line 341, empty quiz).  Literal apostrophes
and braces inside the Python strings are written with `\x27`, `\x7b`, `\x7d`. -/

def pythonLevel0 : LevelEntry :=
  { modules :=
      [ { title := "Variables y tipos"
        , lesson := "int/float/str/bool, print, f-strings"
        , code := "name=\x27Ada\x27; age=30; print(f\x27Hola \x7bname\x7d, \x7bage\x7d\x27)"
        , exercises := ["Declara 3 vars y muéstralas", "Concatena str + número convirtiendo tipo"]
        , tasks := ["Script que pida nombre/edad y diga edad+5"] }
      , { title := "Control de flujo"
        , lesson := "if/elif/else, comparaciones, bool"
        , code := "x=7\nif x>10: print(\x27grande\x27)\nelif x>=5: print(\x27mediano\x27)\nelse: print(\x27pequeño\x27)"
        , exercises := ["Par/impar", "Signo de un número"]
        , tasks := ["Calculadora +,-,*,/ con manejo de /0"] }
      , { title := "Bucles y colecciones"
        , lesson := "for/while, listas, dict, range, len, append"
        , code := "nums=[1,2,3]\nfor n in nums: print(n)\nfor k,v in \x7b\x27a\x27:1\x7d.items(): print(k,v)"
        , exercises := ["Suma lista", "Contar letras en string"]
        , tasks := ["Aplicar 10% descuento a precios y totalizar"] }
      , { title := "Funciones"
        , lesson := "def, params, return, scope básico"
        , code := "def area(r): return 3.1416*r*r\nprint(area(3))"
        , exercises := ["Max de 3 números", "Filtrar pares de lista"]
        , tasks := ["Validador de contraseña: >=8, 1 número, 1 letra -> True/False"] } ]
  , quiz :=
      [ { q := "len(\x27hola\x27) =", options := ["3", "4", "5"], answer := 1 }
      , { q := "if 5>3: print(\x27ok\x27) imprime", options := ["nada", "ok", "error"], answer := 1 }
      , { q := "[n for n in [1,2,3] if n%2]==?", options := ["[1,3]", "[2]", "[]"], answer := 0 } ]
  , errors :=
      [ { name := "SyntaxError", why := "Falta : comillas o paréntesis"
        , how := "Revisar línea previa e identación", exampleText := "if x>3 print(x)" }
      , { name := "NameError", why := "Variable no definida"
        , how := "Definir antes, revisar typos", exampleText := "pritn(x)" }
      , { name := "TypeError", why := "Operación con tipos incompatibles"
        , how := "Convertir tipos o ajustar operación", exampleText := "\x27a\x27+1" } ] }

def pythonLevel11 : LevelEntry :=
  { modules :=
      [ { title := "Python nivel 11 (placeholder)"
        , lesson := "Añade lección avanzada (IA, dist-sys, seguridad profunda, etc.)"
        , code := "# ejemplo"
        , exercises := ["Ej1"]
        , tasks := ["Proyecto del nivel"] } ]
  , quiz := []
  , errors := [] }

/-- The fragment of `TUTOR_CONTENT` the concrete scenarios touch. -/
def pyCat : Catalog := fun lang level =>
  if lang = "python" then
    if level = 0 then some pythonLevel0
    else if level = 11 then some pythonLevel11
    else none
  else none

/-- Drive `next_cmd` `n` times, collecting the replies in order. -/
def advanceRun (cat : Catalog) : Nat → Option Session → Option Session × List NextOutcome
  | 0, st => (st, [])
  | n + 1, st =>
      let r := next_cmd cat st
      let rest := advanceRun cat n r.1
      (rest.1, r.2.1 :: rest.2)

theorem next_cmd_current (cat : Catalog) (s : Session) (entry : LevelEntry)
    (hcat : cat s.lang s.level = some entry) (h : s.module_idx < entry.modules.length) :
    next_cmd cat (some s) =
      (some { s with module_idx := s.module_idx + 1 },
       NextOutcome.lesson (entry.modules.get ⟨s.module_idx, h⟩) s.module_idx
         entry.modules.length,
       true) := by
  simp only [next_cmd, tutor_current_module, hcat]
  rw [dif_pos h]

theorem next_cmd_exhausted (cat : Catalog) (s : Session) (entry : LevelEntry)
    (hcat : cat s.lang s.level = some entry) (h : ¬ s.module_idx < entry.modules.length) :
    next_cmd cat (some s) = (some s, NextOutcome.exhausted, false) := by
  simp only [next_cmd, tutor_current_module, hcat]
  rw [dif_neg h]

theorem advanceRun_lessons (cat : Catalog) (entry : LevelEntry) :
    ∀ (rest done : List Module) (s : Session),
      cat s.lang s.level = some entry →
      entry.modules = done ++ rest →
      s.module_idx = done.length →
      advanceRun cat rest.length (some s) =
        (some { s with module_idx := s.module_idx + rest.length },
         (rest.enumFrom done.length).map
           (fun p => NextOutcome.lesson p.2 p.1 entry.modules.length)) := by
  intro rest
  induction rest with
  | nil =>
    intro done s hcat hmods hidx
    simp [advanceRun]
  | cons m rest ih =>
    intro done s hcat hmods hidx
    have hlt : s.module_idx < entry.modules.length := by
      rw [hmods, hidx]
      simp only [List.length_append, List.length_cons]
      omega
    have h1 : entry.modules[s.module_idx]? = some m := by
      rw [hmods, hidx, List.getElem?_append_right (le_refl done.length)]
      simp
    have hget : entry.modules.get ⟨s.module_idx, hlt⟩ = m := by
      have h2 := List.getElem?_eq_getElem hlt
      rw [h1] at h2
      rw [List.get_eq_getElem]
      exact (Option.some.inj h2).symm
    have hnext := next_cmd_current cat s entry hcat hlt
    have hrec := ih (done ++ [m]) { s with module_idx := s.module_idx + 1 } hcat
      (by rw [hmods]; simp) (by simp [hidx])
    show (let r := next_cmd cat (some s)
          let rest' := advanceRun cat rest.length r.1
          (rest'.1, r.2.1 :: rest'.2)) =
        (some { s with module_idx := s.module_idx + (rest.length + 1) },
         ((m :: rest).enumFrom done.length).map
           (fun p => NextOutcome.lesson p.2 p.1 entry.modules.length))
    rw [hget] at hnext
    simp only [hnext]
    rw [hrec]
    dsimp only
    simp only [hidx, List.length_append, List.length_singleton, List.enumFrom, List.map]
    have harith : done.length + 1 + rest.length = done.length + (rest.length + 1) := by omega
    rw [harith]

theorem advanceRun_exhausted (cat : Catalog) (entry : LevelEntry) (s : Session)
    (hcat : cat s.lang s.level = some entry) (h : ¬ s.module_idx < entry.modules.length) :
    ∀ k, advanceRun cat k (some s) = (some s, List.replicate k NextOutcome.exhausted) := by
  intro k
  induction k with
  | zero => rfl
  | succ k ih =>
    have hnext := next_cmd_exhausted cat s entry hcat h
    show (let r := next_cmd cat (some s)
          let rest' := advanceRun cat k r.1
          (rest'.1, r.2.1 :: rest'.2)) =
        (some s, List.replicate (k + 1) NextOutcome.exhausted)
    simp only [hnext]
    rw [ih]
    simp [List.replicate_succ]

/-- C2: from an active session with `module_cursor = 0` over a catalog entry,
calling `advance` (`next_cmd`) exactly `moduleCount` times returns each module
exactly once, in catalog order, each tagged with its pre-increment cursor and
followed by a cursor increment; afterwards every further call returns the
idempotent `exhausted` signal and leaves the cursor unchanged. -/
theorem C2_advance_enumerates (cat : Catalog) (lang : String) (level : Int)
    (entry : LevelEntry) (qi sc : Nat)
    (hcat : cat lang level = some entry) :
    advanceRun cat entry.modules.length
        (some { lang := lang, level := level, module_idx := 0, quiz_idx := qi, score := sc }) =
      (some { lang := lang, level := level, module_idx := entry.modules.length,
              quiz_idx := qi, score := sc },
       entry.modules.enum.map
         (fun p => NextOutcome.lesson p.2 p.1 entry.modules.length)) ∧
    (∀ k, advanceRun cat k
        (some { lang := lang, level := level, module_idx := entry.modules.length,
                quiz_idx := qi, score := sc }) =
      (some { lang := lang, level := level, module_idx := entry.modules.length,
              quiz_idx := qi, score := sc },
       List.replicate k NextOutcome.exhausted)) := by
  constructor
  · have h := advanceRun_lessons cat entry entry.modules []
      { lang := lang, level := level, module_idx := 0, quiz_idx := qi, score := sc }
      hcat (by simp) rfl
    simpa [List.enum] using h
  · intro k
    exact advanceRun_exhausted cat entry _ hcat (by simp) k

/-- Concrete check of C2 for `TUTOR_CONTENT["python"][0]` (four modules):
after four `advance` calls the cursor sits at `moduleCount` and a fifth call
is the idempotent exhausted signal. -/
theorem C2_advance_enumerates_witness :
    pyCat "python" 0 = some pythonLevel0 ∧
    (advanceRun pyCat pythonLevel0.modules.length
        (some { lang := "python", level := 0, module_idx := 0, quiz_idx := 0, score := 0 })).1 =
      some { lang := "python", level := 0, module_idx := pythonLevel0.modules.length,
             quiz_idx := 0, score := 0 } :=
  ⟨rfl, by rw [(C2_advance_enumerates pyCat "python" 0 pythonLevel0 0 0 rfl).1]⟩

theorem answer_cmd_current (cat : Catalog) (s : Session) (entry : LevelEntry) (n : Int)
    (hcat : cat s.lang s.level = some entry) (h : s.quiz_idx < entry.quiz.length) :
    answer_cmd cat (some s) n =
      (let q := entry.quiz.get ⟨s.quiz_idx, h⟩
       let correct := decide (n - 1 = (q.answer : Int))
       let s4 : Session := { s with quiz_idx := s.quiz_idx + 1,
                                    score := s.score + (if correct then 1 else 0) }
       if h2 : s4.quiz_idx < entry.quiz.length then
         (some s4,
          AnswerOutcome.nextQuestion correct (entry.quiz.get ⟨s4.quiz_idx, h2⟩)
            s4.quiz_idx entry.quiz.length, true)
       else
         (some s4, AnswerOutcome.finished correct s4.score entry.quiz.length, true)) := by
  simp only [answer_cmd, tutor_quiz_question, hcat]
  rw [dif_pos h]
  simp only [List.get_eq_getElem]
  by_cases hc : (n - 1 : Int) = ((entry.quiz[s.quiz_idx]).answer : Int)
  · simp [hc]
  · simp [hc]

/-- Drive `answer_cmd` `k` times, each time submitting the 1-based documented
correct index of the session's current question (the spec's always-correct
quiz scenario). -/
def submitCorrectRun (cat : Catalog) (entry : LevelEntry) :
    Nat → Option Session → Option Session
  | 0, st => st
  | k + 1, st =>
      let n : Int :=
        match st with
        | some s => ((entry.quiz.getD s.quiz_idx default).answer : Int) + 1
        | none => 0
      submitCorrectRun cat entry k (answer_cmd cat st n).1

theorem submitCorrectRun_all (cat : Catalog) (entry : LevelEntry) :
    ∀ (k : Nat) (s : Session),
      cat s.lang s.level = some entry →
      s.quiz_idx + k = entry.quiz.length →
      submitCorrectRun cat entry k (some s) =
        some { s with quiz_idx := entry.quiz.length, score := s.score + k } := by
  intro k
  induction k with
  | zero =>
    intro s hcat hk
    have hL : entry.quiz.length = s.quiz_idx := by omega
    rw [hL]
    rfl
  | succ k ih =>
    intro s hcat hk
    have h : s.quiz_idx < entry.quiz.length := by omega
    have hgetD : entry.quiz.getD s.quiz_idx default = entry.quiz.get ⟨s.quiz_idx, h⟩ := by
      rw [List.getD_eq_getElem _ _ h, List.get_eq_getElem]
    have hstep := answer_cmd_current cat s entry
      (((entry.quiz.getD s.quiz_idx default).answer : Int) + 1) hcat h
    have hcorrect : decide ((((entry.quiz.getD s.quiz_idx default).answer : Int) + 1) - 1 =
        ((entry.quiz.get ⟨s.quiz_idx, h⟩).answer : Int)) = true := by
      rw [hgetD]
      simp
    have hfst : (answer_cmd cat (some s)
        (((entry.quiz.getD s.quiz_idx default).answer : Int) + 1)).1 =
        some { s with quiz_idx := s.quiz_idx + 1, score := s.score + 1 } := by
      rw [hstep]
      dsimp only
      rw [hcorrect]
      split <;> rfl
    have hrec := ih { s with quiz_idx := s.quiz_idx + 1, score := s.score + 1 } hcat
      (by show s.quiz_idx + 1 + k = entry.quiz.length; omega)
    show submitCorrectRun cat entry k
        (answer_cmd cat (some s) (((entry.quiz.getD s.quiz_idx default).answer : Int) + 1)).1 =
      some { s with quiz_idx := entry.quiz.length, score := s.score + (k + 1) }
    rw [hfst, hrec]
    have ha : s.score + 1 + k = s.score + (k + 1) := by omega
    simp only [ha]

theorem quiz_cmd_nonempty (cat : Catalog) (s : Session) (entry : LevelEntry)
    (hcat : cat s.lang s.level = some entry) (h : 0 < entry.quiz.length) :
    quiz_cmd cat (some s) =
      (some { s with quiz_idx := 0, score := 0 },
       QuizOutcome.firstQuestion (entry.quiz.get ⟨0, h⟩) 0 entry.quiz.length, true) := by
  simp only [quiz_cmd, tutor_quiz_question, hcat]
  rw [dif_pos h]

theorem quiz_cmd_empty_quiz (cat : Catalog) (s : Session) (entry : LevelEntry)
    (hcat : cat s.lang s.level = some entry) (hq : entry.quiz = []) :
    quiz_cmd cat (some s) =
      (some { s with quiz_idx := 0, score := 0 }, QuizOutcome.noQuiz, false) := by
  simp only [quiz_cmd, tutor_quiz_question, hcat]
  rw [dif_neg (by simp [hq])]

/-- C5: (i) with an in-range quiz cursor, `answer_cmd` compares the zero-based
form `n - 1` of the choice against the stored correct index, increments the
score exactly on a match, increments the quiz cursor unconditionally, persists,
and replies with the verdict plus either the next question or the final
score/quizCount summary; (ii) `quiz_cmd` followed by submitting the documented
correct index for every question ends with `score = quizCount`. -/
theorem C5_submit_answer (cat : Catalog) (s : Session) (entry : LevelEntry)
    (hcat : cat s.lang s.level = some entry) :
    (∀ (n : Int) (h : s.quiz_idx < entry.quiz.length),
      answer_cmd cat (some s) n =
        (let q := entry.quiz.get ⟨s.quiz_idx, h⟩
         let correct := decide (n - 1 = (q.answer : Int))
         let s4 : Session := { s with quiz_idx := s.quiz_idx + 1,
                                      score := s.score + (if correct then 1 else 0) }
         if h2 : s4.quiz_idx < entry.quiz.length then
           (some s4,
            AnswerOutcome.nextQuestion correct (entry.quiz.get ⟨s4.quiz_idx, h2⟩)
              s4.quiz_idx entry.quiz.length, true)
         else
           (some s4, AnswerOutcome.finished correct s4.score entry.quiz.length, true))) ∧
    (entry.quiz ≠ [] →
      submitCorrectRun cat entry entry.quiz.length (quiz_cmd cat (some s)).1 =
        some { s with quiz_idx := entry.quiz.length, score := entry.quiz.length }) := by
  constructor
  · intro n h
    exact answer_cmd_current cat s entry n hcat h
  · intro hne
    have hpos : 0 < entry.quiz.length := List.length_pos.2 hne
    rw [quiz_cmd_nonempty cat s entry hcat hpos]
    have hrun := submitCorrectRun_all cat entry entry.quiz.length
      { s with quiz_idx := 0, score := 0 } hcat (by show 0 + entry.quiz.length = _; omega)
    dsimp only
    rw [hrun]
    have hz : 0 + entry.quiz.length = entry.quiz.length := by omega
    simp only [hz]

/-- Concrete check of C5 over `TUTOR_CONTENT["python"][0]` (three questions):
answering question 0 with the 1-based correct choice 2 increments score and
cursor, and the always-correct full run ends with score = 3 = quizCount. -/
theorem C5_submit_answer_witness :
    (answer_cmd pyCat (some { lang := "python", level := 0, module_idx := 0, quiz_idx := 0, score := 0 }) 2).1 =
      some { lang := "python", level := 0, module_idx := 0, quiz_idx := 1, score := 1 } ∧
    submitCorrectRun pyCat pythonLevel0 3
        (quiz_cmd pyCat (some { lang := "python", level := 0, module_idx := 5, quiz_idx := 0, score := 0 })).1 =
      some { lang := "python", level := 0, module_idx := 5, quiz_idx := 3, score := 3 } := by
  have h1 := (C5_submit_answer pyCat
    { lang := "python", level := 0, module_idx := 0, quiz_idx := 0, score := 0 }
    pythonLevel0 rfl).1 2 (by decide)
  have h2 := (C5_submit_answer pyCat
    { lang := "python", level := 0, module_idx := 5, quiz_idx := 0, score := 0 }
    pythonLevel0 rfl).2 (by decide)
  constructor
  · rw [h1]
    rfl
  · exact h2

theorem next_cmd_keyError (cat : Catalog) (s : Session) (h : cat s.lang s.level = none) :
    next_cmd cat (some s) = (some s, NextOutcome.raised, false) := by
  simp only [next_cmd, tutor_current_module, h]

theorem answer_cmd_keyError (cat : Catalog) (s : Session) (n : Int)
    (h : cat s.lang s.level = none) :
    answer_cmd cat (some s) n = (some s, AnswerOutcome.raised, false) := by
  simp only [answer_cmd, tutor_quiz_question, h]

theorem answer_cmd_noQuestion (cat : Catalog) (s : Session) (entry : LevelEntry) (n : Int)
    (hcat : cat s.lang s.level = some entry) (h : ¬ s.quiz_idx < entry.quiz.length) :
    answer_cmd cat (some s) n = (some s, AnswerOutcome.noQuestion, false) := by
  simp only [answer_cmd, tutor_quiz_question, hcat]
  rw [dif_neg h]

/-- Whatever branch `quiz_cmd` takes on an existing session, the stored state
afterwards is the session with `quiz_idx` and `score` reset to 0. -/
theorem quiz_cmd_fst (cat : Catalog) (s : Session) :
    (quiz_cmd cat (some s)).1 = some { s with quiz_idx := 0, score := 0 } := by
  simp only [quiz_cmd, tutor_quiz_question]
  cases hcat : cat s.lang s.level with
  | none => rfl
  | some entry =>
    dsimp only
    by_cases h : 0 < entry.quiz.length
    · rw [dif_pos h]
    · rw [dif_neg h]

theorem progress_cmd_fst (cat : Catalog) (s : Session) :
    (progress_cmd cat (some s)).1 = some s := by
  simp only [progress_cmd]
  cases cat s.lang s.level <;> rfl

/-- C6 counterexample: over the empty-quiz level `python/11`, `quiz_cmd` on a
session holding `quiz_idx = 3, score = 2` (such a session can enter the map
through the persisted-state file, which is trusted on load) replies NoQuiz as
claimed, yet does NOT leave `quiz_idx`/`score` unchanged: the in-place reset
to 0 runs before the emptiness check. -/
theorem C6_counterexample :
    (quiz_cmd pyCat (some { lang := "python", level := 11, module_idx := 0, quiz_idx := 3, score := 2 })).2.1 =
      QuizOutcome.noQuiz ∧
    (quiz_cmd pyCat (some { lang := "python", level := 11, module_idx := 0, quiz_idx := 3, score := 2 })).1 ≠
      some { lang := "python", level := 11, module_idx := 0, quiz_idx := 3, score := 2 } ∧
    (quiz_cmd pyCat (some { lang := "python", level := 11, module_idx := 0, quiz_idx := 3, score := 2 })).1 =
      some { lang := "python", level := 11, module_idx := 0, quiz_idx := 0, score := 0 } := by
  refine ⟨rfl, ?_, rfl⟩
  intro h
  simp [quiz_cmd, tutor_quiz_question, pyCat, pythonLevel11] at h

/-- C6 amended: `startQuiz` on an active session over an empty quiz fails with
the NoQuizAvailable reply and performs no persistence write, but it resets
`quiz_idx` and `score` to 0 BEFORE the emptiness check; the session is
observably unchanged only when both were already 0, which is the case for
every session satisfying the C9 invariants (there `quiz_idx ≤ quizCount = 0`
and `score ≤ quiz_idx`). -/
theorem C6_startQuiz_empty_mutates (cat : Catalog) (s : Session) (entry : LevelEntry)
    (hcat : cat s.lang s.level = some entry) (hq : entry.quiz = []) :
    quiz_cmd cat (some s) =
      (some { s with quiz_idx := 0, score := 0 }, QuizOutcome.noQuiz, false) ∧
    (s.quiz_idx ≤ entry.quiz.length → s.score ≤ s.quiz_idx →
      quiz_cmd cat (some s) = (some s, QuizOutcome.noQuiz, false)) := by
  have h := quiz_cmd_empty_quiz cat s entry hcat hq
  refine ⟨h, ?_⟩
  intro h1 h2
  have hq0 : s.quiz_idx = 0 := by
    rw [hq] at h1
    simpa using h1
  have hs0 : s.score = 0 := by omega
  have hrec : ({ s with quiz_idx := 0, score := 0 } : Session) = s := by
    cases s with
    | mk lang level mi qi sc =>
      dsimp only at hq0 hs0 ⊢
      rw [hq0, hs0]
  rw [h, hrec]

/-- Concrete check of the amended C6 at `python/11`: the mutated result for a
stale session, and the no-op result for an invariant-respecting session. -/
theorem C6_startQuiz_empty_mutates_witness :
    quiz_cmd pyCat (some { lang := "python", level := 11, module_idx := 2, quiz_idx := 7, score := 4 }) =
      (some { lang := "python", level := 11, module_idx := 2, quiz_idx := 0, score := 0 },
       QuizOutcome.noQuiz, false) ∧
    quiz_cmd pyCat (some { lang := "python", level := 11, module_idx := 2, quiz_idx := 0, score := 0 }) =
      (some { lang := "python", level := 11, module_idx := 2, quiz_idx := 0, score := 0 },
       QuizOutcome.noQuiz, false) :=
  ⟨(C6_startQuiz_empty_mutates pyCat
      { lang := "python", level := 11, module_idx := 2, quiz_idx := 7, score := 4 }
      pythonLevel11 rfl rfl).1,
   (C6_startQuiz_empty_mutates pyCat
      { lang := "python", level := 11, module_idx := 2, quiz_idx := 0, score := 0 }
      pythonLevel11 rfl rfl).2 (by decide) (by decide)⟩

/-- C10 counterexample: `startQuiz` (`quiz_cmd`) is a tutoring operation other
than begin/reset, yet on a session with `quiz_idx = 2` it moves the quiz
cursor back to 0 — the cursor decreases. -/
theorem C10_counterexample :
    ((quiz_cmd pyCat (some { lang := "python", level := 0, module_idx := 1, quiz_idx := 2, score := 1 })).1.map
        Session.quiz_idx) = some 0 ∧ (0 : Nat) < 2 := by
  constructor
  · rfl
  · decide

/-- C10 amended: across `advance`, `submitAnswer` and `progress` neither
cursor ever decreases; `startQuiz` never decreases the module cursor, but it
resets the quiz cursor (and score) to 0, so the exceptions to monotonicity
are begin, reset AND startQuiz. -/
theorem C10_cursors_monotone (cat : Catalog) (s : Session) :
    (∀ st', (next_cmd cat (some s)).1 = some st' →
        s.module_idx ≤ st'.module_idx ∧ s.quiz_idx ≤ st'.quiz_idx) ∧
    (∀ n st', (answer_cmd cat (some s) n).1 = some st' →
        s.module_idx ≤ st'.module_idx ∧ s.quiz_idx ≤ st'.quiz_idx) ∧
    (∀ st', (progress_cmd cat (some s)).1 = some st' →
        s.module_idx ≤ st'.module_idx ∧ s.quiz_idx ≤ st'.quiz_idx) ∧
    (∀ st', (quiz_cmd cat (some s)).1 = some st' →
        s.module_idx ≤ st'.module_idx ∧ st'.quiz_idx = 0) := by
  refine ⟨?_, ?_, ?_, ?_⟩
  · intro st' h
    cases hcat : cat s.lang s.level with
    | none =>
      rw [next_cmd_keyError cat s hcat] at h
      cases h
      exact ⟨le_refl _, le_refl _⟩
    | some entry =>
      by_cases hlt : s.module_idx < entry.modules.length
      · rw [next_cmd_current cat s entry hcat hlt] at h
        cases h
        exact ⟨by dsimp only; omega, le_refl _⟩
      · rw [next_cmd_exhausted cat s entry hcat hlt] at h
        cases h
        exact ⟨le_refl _, le_refl _⟩
  · intro n st' h
    cases hcat : cat s.lang s.level with
    | none =>
      rw [answer_cmd_keyError cat s n hcat] at h
      cases h
      exact ⟨le_refl _, le_refl _⟩
    | some entry =>
      by_cases hlt : s.quiz_idx < entry.quiz.length
      · rw [answer_cmd_current cat s entry n hcat hlt] at h
        dsimp only at h
        split at h <;> cases h <;> exact ⟨by dsimp only; omega, by dsimp only; omega⟩
      · rw [answer_cmd_noQuestion cat s entry n hcat hlt] at h
        cases h
        exact ⟨le_refl _, le_refl _⟩
  · intro st' h
    rw [progress_cmd_fst cat s] at h
    cases h
    exact ⟨le_refl _, le_refl _⟩
  · intro st' h
    rw [quiz_cmd_fst cat s] at h
    cases h
    exact ⟨le_refl _, rfl⟩

/-- Concrete check of the amended C10: over `python/0`, `advance` moves the
module cursor 1 → 2, `submitAnswer` moves the quiz cursor 0 → 1, and
`startQuiz` keeps the module cursor while zeroing the quiz cursor. -/
theorem C10_cursors_monotone_witness :
    ((1 : Nat) ≤ 2 ∧ (0 : Nat) ≤ 0) ∧ ((1 : Nat) ≤ 1 ∧ (2 : Nat) = 2 ∧ (0 : Nat) = 0) := by
  have h1 := (C10_cursors_monotone pyCat
    { lang := "python", level := 0, module_idx := 1, quiz_idx := 0, score := 0 }).1
    { lang := "python", level := 0, module_idx := 2, quiz_idx := 0, score := 0 } rfl
  have h2 := (C10_cursors_monotone pyCat
    { lang := "python", level := 0, module_idx := 1, quiz_idx := 2, score := 1 }).2.2.2
    { lang := "python", level := 0, module_idx := 1, quiz_idx := 0, score := 0 } rfl
  exact ⟨h1, h2.1, rfl, h2.2⟩

/-- The six tutoring operations of the spec, as dispatched by the command
handlers. -/
inductive TutorOp where
  | begin (lang : String) (level : Int)
  | advance
  | startQuiz
  | submit (n : Int)
  | progress
  | reset
deriving Repr, DecidableEq

/-- The state transition of one tutoring operation on one user's slot. -/
def applyOp (cat : Catalog) (st : Option Session) : TutorOp → Option Session
  | .begin lang level => (learn_cmd cat st lang level).1
  | .advance => (next_cmd cat st).1
  | .startQuiz => (quiz_cmd cat st).1
  | .submit n => (answer_cmd cat st n).1
  | .progress => (progress_cmd cat st).1
  | .reset => (reset_cmd st).1

/-- States of one user's slot reachable from the fresh (no-session) state by
tutoring operations. -/
inductive ReachableState (cat : Catalog) : Option Session → Prop
  | init : ReachableState cat none
  | step {st : Option Session} (h : ReachableState cat st) (op : TutorOp) :
      ReachableState cat (applyOp cat st op)

/-- The spec's session invariants: an active session points at an existing
catalog entry, `module_idx ≤ moduleCount`, `quiz_idx ≤ quizCount` and
`score ≤ quiz_idx` (the lower bounds `0 ≤ _` are carried by the `Nat` type of
the cursor fields, which the code only zeroes and increments). -/
def SessionInv (cat : Catalog) (st : Option Session) : Prop :=
  ∀ s, st = some s → ∃ entry, cat s.lang s.level = some entry ∧
    s.module_idx ≤ entry.modules.length ∧
    s.quiz_idx ≤ entry.quiz.length ∧
    s.score ≤ s.quiz_idx

/-- C9: every session reachable from `begin` satisfies the invariants
`module_idx ≤ moduleCount`, `quiz_idx ≤ quizCount` and `score ≤ quiz_idx`;
in particular every tutoring operation preserves them. -/
theorem C9_session_invariants (cat : Catalog) :
    ∀ st, ReachableState cat st → SessionInv cat st := by
  intro st h
  induction h with
  | init =>
    intro s hs
    cases hs
  | @step t ht op ih =>
    cases op with
    | begin lang level =>
      intro s hs
      simp only [applyOp, learn_cmd] at hs
      cases hcat : cat lang level with
      | none =>
        rw [hcat] at hs
        exact ih s hs
      | some entry =>
        rw [hcat] at hs
        cases hs
        exact ⟨entry, hcat, Nat.zero_le _, Nat.zero_le _, le_refl _⟩
    | advance =>
      intro s hs
      simp only [applyOp] at hs
      cases t with
      | none =>
        cases hs
      | some s0 =>
        obtain ⟨entry, hcat, hm, hq, hsc⟩ := ih s0 rfl
        by_cases hlt : s0.module_idx < entry.modules.length
        · rw [next_cmd_current cat s0 entry hcat hlt] at hs
          cases hs
          exact ⟨entry, hcat, by dsimp only; omega, hq, hsc⟩
        · rw [next_cmd_exhausted cat s0 entry hcat hlt] at hs
          cases hs
          exact ⟨entry, hcat, hm, hq, hsc⟩
    | startQuiz =>
      intro s hs
      simp only [applyOp] at hs
      cases t with
      | none =>
        simp only [quiz_cmd] at hs
        cases hs
      | some s0 =>
        obtain ⟨entry, hcat, hm, hq, hsc⟩ := ih s0 rfl
        rw [quiz_cmd_fst cat s0] at hs
        cases hs
        exact ⟨entry, hcat, hm, Nat.zero_le _, le_refl _⟩
    | submit n =>
      intro s hs
      simp only [applyOp] at hs
      cases t with
      | none =>
        simp only [answer_cmd] at hs
        cases hs
      | some s0 =>
        obtain ⟨entry, hcat, hm, hq, hsc⟩ := ih s0 rfl
        by_cases hlt : s0.quiz_idx < entry.quiz.length
        · rw [answer_cmd_current cat s0 entry n hcat hlt] at hs
          dsimp only at hs
          have hite : (if decide (n - 1 =
              ((entry.quiz.get ⟨s0.quiz_idx, hlt⟩).answer : Int)) = true
              then 1 else 0) ≤ 1 := by
            split <;> omega
          split at hs <;> cases hs <;>
            exact ⟨entry, hcat, hm, by dsimp only; omega, by dsimp only; omega⟩
        · rw [answer_cmd_noQuestion cat s0 entry n hcat hlt] at hs
          cases hs
          exact ⟨entry, hcat, hm, hq, hsc⟩
    | progress =>
      intro s hs
      simp only [applyOp] at hs
      cases t with
      | none =>
        simp only [progress_cmd] at hs
        cases hs
      | some s0 =>
        rw [progress_cmd_fst cat s0] at hs
        cases hs
        exact ih _ rfl
    | reset =>
      intro s hs
      simp only [applyOp, reset_cmd] at hs
      cases hs

/-- Concrete check of C9: the state reached by `begin("python", 0)` then one
`advance` satisfies the module-cursor bound over `python/0`. -/
theorem C9_session_invariants_witness : (1 : Nat) ≤ pythonLevel0.modules.length := by
  have h := C9_session_invariants pyCat _
    (ReachableState.step (ReachableState.step ReachableState.init
      (TutorOp.begin "python" 0)) TutorOp.advance)
  obtain ⟨entry, hcat, hm, -, -⟩ :=
    h { lang := "python", level := 0, module_idx := 1, quiz_idx := 0, score := 0 } (by rfl)
  have he : entry = pythonLevel0 := by
    have h0 : some entry = some pythonLevel0 := by
      rw [← hcat]
      rfl
    exact Option.some.inj h0
  rw [he] at hm
  exact hm

/-! ## Content-addressed OCR cache (`handle_photo`, lines 973-978)

`ocr_cache : Dict[str, str]` maps the sha256 hex digest of the downloaded
file's bytes (`_hash_file`, lines 588-593) to the extracted text.  The digest
is a deterministic pure function of the bytes, modelled as an uninterpreted
parameter `hashFn`; the extraction collaborator `ocr_image_path` (which
already yields "" on failure, and whose result Python passes through
`or ""`, the identity on strings) is the parameter `ocrFn`.  The dict is
modelled as an association list with insertion at the head. -/

/-- The cache fragment of `handle_photo`:
`file_hash = _hash_file(tmp_path); if file_hash in ocr_cache: extracted =
ocr_cache[file_hash] else: extracted = ocr_image_path(tmp_path) or "";
ocr_cache[file_hash] = extracted`.  Returns (text, new cache, whether the
extraction collaborator ran). -/
def getOrCompute (hashFn : List Nat → String) (ocrFn : List Nat → String)
    (cache : List (String × String)) (bytes : List Nat) :
    String × List (String × String) × Bool :=
  let file_hash := hashFn bytes
  match cache.lookup file_hash with
  | some t => (t, cache, false)
  | none =>
      let extracted := ocrFn bytes
      (extracted, (file_hash, extracted) :: cache, true)

/-- C3: two `getOrCompute` calls on byte-identical payloads invoke the
extraction function at most once in total and return equal text; the first
call leaves the derived text stored under the payload's content hash, and the
second call is a pure cache hit. -/
theorem C3_cache_deduplicates (hashFn ocrFn : List Nat → String)
    (cache : List (String × String)) (b : List Nat) :
    (let r1 := getOrCompute hashFn ocrFn cache b
     let r2 := getOrCompute hashFn ocrFn r1.2.1 b
     r1.2.1.lookup (hashFn b) = some r1.1 ∧
     r2.1 = r1.1 ∧
     r2.2.2 = false ∧
     (if r1.2.2 then 1 else 0) + (if r2.2.2 then 1 else 0) ≤ 1) := by
  dsimp only [getOrCompute]
  cases hl : cache.lookup (hashFn b) with
  | some t =>
    refine ⟨hl, ?_, ?_, ?_⟩ <;> simp [hl]
  | none =>
    have hhead : ((hashFn b, ocrFn b) :: cache).lookup (hashFn b) = some (ocrFn b) := by
      simp [List.lookup]
    refine ⟨hhead, ?_, ?_, ?_⟩ <;> simp [hhead]

/-! ## Resilient fetcher (`_download_with_retry`, lines 623-644)

The fetcher resolves the remote file, converts its declared byte size with
`_mb` (round to two decimal megabytes), rejects oversized files before any
transfer or allocation, then creates one `NamedTemporaryFile(delete=False)`
and attempts `download_to_drive` up to `DOWNLOAD_MAX_RETRIES` times.
`RetryAfter` and `NetworkError` are both caught, logged, and retried; any
other exception propagates.  Sizes are exact rationals: every float the
Python code manipulates at the inputs used here is exactly representable and
never a rounding tie, so the rational model coincides with binary64. -/

/-- Python's `round(x, 2)` on the exact value: nearest multiple of 1/100,
ties to even (banker's rounding). -/
def pyRound2 (x : ℚ) : ℚ :=
  let y := x * 100
  let f : Int := ⌊y⌋
  let r := y - f
  let n : Int :=
    if r < 1 / 2 then f
    else if 1 / 2 < r then f + 1
    else if f % 2 = 0 then f else f + 1
  (n : ℚ) / 100

/-- `_mb` (lines 566-567): `round(bytes_size / (1024 * 1024), 2)`. -/
def _mb (bytes_size : Nat) : ℚ := pyRound2 ((bytes_size : ℚ) / (1024 * 1024))

/-- Behaviour of the `attempt`-th `download_to_drive` call, supplied by the
transport collaborator: success, a provider-signaled `RetryAfter` (carrying
its `retry_after` seconds), or a generic `NetworkError`. -/
inductive TransferOutcome where
  | ok
  | retryAfterSig (seconds : ℚ)
  | netError
deriving Repr, DecidableEq

/-- The retry loop of `_download_with_retry` (lines 632-644):
`for attempt in range(1, DOWNLOAD_MAX_RETRIES + 1)` tries the transfer; on
success the temp path is returned (`some ()`); both `except RetryAfter` and
`except NetworkError` merely record `last_err`, log, and fall through to the
next iteration.  Returns (result, attempts made, waits); `waits` records the
delay inserted before each subsequent attempt — the loop body contains no
sleep of any kind, so every recorded inter-attempt wait is 0. -/
def downloadLoop (outcome : Nat → TransferOutcome) : Nat → Nat → Option Unit × Nat × List ℚ
  | _, 0 => (none, 0, [])
  | attempt, 1 =>
      match outcome attempt with
      | .ok => (some (), 1, [])
      | _ => (none, 1, [])
  | attempt, remaining + 2 =>
      match outcome attempt with
      | .ok => (some (), 1, [])
      | _ =>
          let r := downloadLoop outcome (attempt + 1) (remaining + 1)
          (r.1, r.2.1 + 1, 0 :: r.2.2)

/-- Observable trace of one `_download_with_retry` call. -/
structure DownloadRun where
  result : Option Unit
  tmpAllocated : Bool
  attemptsMade : Nat
  waits : List ℚ
deriving Repr, DecidableEq

/-- `_download_with_retry` (lines 623-644).  `file_size` is
`file_info.file_size` (bytes; `None` becomes 0 via `or 0`), `max_mb` the cap.
If `_mb(size) > max_mb` it returns `None` at once: no attempt, no temp file.
Otherwise it creates the single temp file and runs the retry loop.  On
failure it returns `None`, not the temp path: the path is lost to the caller
(compare `handlerReleases`). -/
def _download_with_retry (file_size : Option Nat) (max_mb : ℚ)
    (maxRetries : Nat) (outcome : Nat → TransferOutcome) : DownloadRun :=
  let size_mb := _mb (file_size.getD 0)
  if max_mb < size_mb then
    { result := none, tmpAllocated := false, attemptsMade := 0, waits := [] }
  else
    let r := downloadLoop outcome 1 maxRetries
    { result := r.1, tmpAllocated := true, attemptsMade := r.2.1, waits := r.2.2 }

/-- The `finally` cleanup of `handle_photo` (lines 989-995) and
`handle_document` (lines 1038-1044): `os.remove(tmp_path)` runs only when
`tmp_path` is set, i.e. only when `_download_with_retry` returned the path. -/
def handlerReleases (run : DownloadRun) : Bool := run.result.isSome

/-- C4 (code bug in the source): when attempt 1 fails with a provider-signaled
"retry after 5 s", the fetcher starts attempt 2 with a recorded wait of 0,
not of at least 5: the except-branch logs `e.retry_after` (line 639) but
never sleeps on it, so the claimed provider-dictated delay is not honoured. -/
theorem C4_retry_after_not_honored :
    (let run := _download_with_retry (some 1000) 256 3
        (fun a => if a = 1 then TransferOutcome.retryAfterSig 5 else TransferOutcome.ok)
     run.attemptsMade = 2 ∧ run.waits = [0] ∧ ¬ ((5 : ℚ) ≤ 0)) := by
  have hsize : ¬ ((256 : ℚ) < _mb 1000) := by norm_num [_mb, pyRound2]
  dsimp only
  unfold _download_with_retry
  simp only [Option.getD_some]
  rw [if_neg hsize]
  exact ⟨rfl, rfl, by norm_num⟩

/-- C7 (code bug in the source): a fetch whose three transfer attempts all
fail has reached the transfer phase and allocated the temporary file, but
`_download_with_retry` returns `None`; the caller's `finally` block removes
the file only when it received the path, so nothing is released — the
temporary file leaks. -/
theorem C7_temp_file_leaks_on_exhaustion :
    (let run := _download_with_retry (some 1000) 256 3 (fun _ => TransferOutcome.netError)
     run.tmpAllocated = true ∧ run.result = none ∧ handlerReleases run = false) := by
  have hsize : ¬ ((256 : ℚ) < _mb 1000) := by norm_num [_mb, pyRound2]
  dsimp only
  unfold handlerReleases _download_with_retry
  simp only [Option.getD_some]
  rw [if_neg hsize]
  exact ⟨rfl, rfl, rfl⟩

/-- C8 counterexample: a declared size of 268435457 bytes exceeds the default
256 MB cap (268435456 bytes), yet `round(size/2^20, 2) = 256.00` is not
greater than the cap, so the transfer IS attempted, the temp file IS
allocated, and a success handle is returned. -/
theorem C8_counterexample :
    (let run := _download_with_retry (some 268435457) 256 3 (fun _ => TransferOutcome.ok)
     (256 * 1024 * 1024 : Nat) < 268435457 ∧
     run.tmpAllocated = true ∧ run.attemptsMade = 1 ∧ run.result = some ()) := by
  have hsize : ¬ ((256 : ℚ) < _mb 268435457) := by norm_num [_mb, pyRound2]
  dsimp only
  unfold _download_with_retry
  simp only [Option.getD_some]
  rw [if_neg hsize]
  exact ⟨by norm_num, rfl, rfl, rfl⟩

theorem pyRound2_ge (x : ℚ) : x - 1 / 200 ≤ pyRound2 x := by
  unfold pyRound2
  dsimp only
  by_cases hr1 : x * 100 - (⌊x * 100⌋ : ℚ) < 1 / 2
  · rw [if_pos hr1]
    linarith
  · rw [if_neg hr1]
    by_cases hr2 : (1 : ℚ) / 2 < x * 100 - (⌊x * 100⌋ : ℚ)
    · rw [if_pos hr2]
      have h2 : x * 100 < (⌊x * 100⌋ : ℚ) + 1 := Int.lt_floor_add_one _
      push_cast
      linarith
    · rw [if_neg hr2]
      have heq : x * 100 - (⌊x * 100⌋ : ℚ) = 1 / 2 :=
        le_antisymm (not_lt.1 hr2) (not_lt.1 hr1)
      by_cases hf2 : ⌊x * 100⌋ % 2 = 0
      · rw [if_pos hf2]
        linarith
      · rw [if_neg hf2]
        push_cast
        linarith

/-- C8 amended: the size gate compares the declared size ROUNDED to two
decimal megabytes against the cap.  When the rounded size exceeds the cap the
fetch fails immediately — no transfer attempt, no temporary file.
Consequently a success handle's exact declared size is at most
`cap + 0.005 MB`; a size exceeding the cap by less than 0.005 MB (up to 5242
bytes at the default 256 MB cap) rounds down and is transferred, as the
counterexample shows. -/
theorem C8_size_cap (file_size : Option Nat) (max_mb : ℚ) (maxRetries : Nat)
    (outcome : Nat → TransferOutcome) :
    (max_mb < _mb (file_size.getD 0) →
      _download_with_retry file_size max_mb maxRetries outcome =
        { result := none, tmpAllocated := false, attemptsMade := 0, waits := [] }) ∧
    ((_download_with_retry file_size max_mb maxRetries outcome).result.isSome →
      ((file_size.getD 0 : ℚ)) / (1024 * 1024) ≤ max_mb + 1 / 200) := by
  constructor
  · intro h
    unfold _download_with_retry
    rw [if_pos h]
  · intro h
    have hle : _mb (file_size.getD 0) ≤ max_mb := by
      by_contra hgt
      rw [not_le] at hgt
      unfold _download_with_retry at h
      rw [if_pos hgt] at h
      simp at h
    have hb := pyRound2_ge ((file_size.getD 0 : ℚ) / (1024 * 1024))
    unfold _mb at hle
    linarith

/-- Concrete check of the amended C8: a 300 MB file is rejected with no
attempt and no allocation at cap 256; a successfully fetched 1000-byte file
obeys the `cap + 0.005 MB` bound. -/
theorem C8_size_cap_witness :
    _download_with_retry (some 314572800) 256 3 (fun _ => TransferOutcome.ok) =
      { result := none, tmpAllocated := false, attemptsMade := 0, waits := [] } ∧
    (((some 1000 : Option Nat).getD 0 : ℚ)) / (1024 * 1024) ≤ 256 + 1 / 200 :=
  ⟨(C8_size_cap (some 314572800) 256 3 (fun _ => TransferOutcome.ok)).1
      (by norm_num [_mb, pyRound2]),
   (C8_size_cap (some 1000) 256 3 (fun _ => TransferOutcome.ok)).2
      (by
        have hsize : ¬ ((256 : ℚ) < _mb 1000) := by norm_num [_mb, pyRound2]
        unfold _download_with_retry
        simp only [Option.getD_some]
        rw [if_neg hsize]
        rfl)⟩
